import Mathlib

/-!
Verification of the recurrence/allocation core of the cashflow service
(`src/api/routers/bills.py`, `src/api/routers/breakdown.py`,
`src/api/routers/ef.py`).

Modelling conventions:
* Python `datetime.date` values are modelled two ways, matching how the two
  kinds of branches in the source use them.  The weekly branch of
  `_next_due_date` only uses uniform day arithmetic and `date.weekday()`, so
  it is modelled over proleptic-Gregorian ordinals (`ℤ`, Python
  `date.toordinal` semantics: ordinal 1 = 0001-01-01, a Monday).  The
  monthly/yearly branches and the enumerators use calendar-field arithmetic
  (`year`, `month`, `day`, `calendar.monthrange`), so they are modelled over
  civil triples (`CDate`), compared lexicographically exactly as Python
  compares dates.  Day stepping (`timedelta(days=n)`) on civil triples is
  the n-fold iteration of the obvious next-day/previous-day functions.
* Python floats carrying currency amounts are modelled as exact rationals
  (`ℚ`); decimal literals such as `0.05` and `1e-6` denote their decimal
  values.  Python's `round(x, n)` is modelled as rounding to `n` decimal
  places; on values that are exact multiples of `10^(-n)` — the only case
  the positive theorems rely on — every tie-breaking convention agrees and
  rounding is the identity.
* Database queries are modelled by passing the fetched rows (bills, ledger
  entries, pre-aggregated figures) as explicit arguments; the SQL aggregates
  of `_ledger_sums` are modelled as folds over the row list.
-/

namespace Cashflow

/-! ## Civil dates -/

/-- A civil date: year, month, day, as Python's `date` exposes them. -/
structure CDate where
  y : ℤ
  m : ℕ
  d : ℕ
deriving DecidableEq, Repr

/-- Python date comparison `a < b` (lexicographic on year, month, day). -/
def CDate.lt (a b : CDate) : Prop :=
  a.y < b.y ∨ (a.y = b.y ∧ (a.m < b.m ∨ (a.m = b.m ∧ a.d < b.d)))

/-- Python date comparison `a <= b`. -/
def CDate.le (a b : CDate) : Prop :=
  a.y < b.y ∨ (a.y = b.y ∧ (a.m < b.m ∨ (a.m = b.m ∧ a.d ≤ b.d)))

instance (a b : CDate) : Decidable (CDate.lt a b) := by
  unfold CDate.lt; infer_instance

instance (a b : CDate) : Decidable (CDate.le a b) := by
  unfold CDate.le; infer_instance

theorem CDate.le_refl (a : CDate) : CDate.le a a := by
  unfold CDate.le; omega

theorem CDate.le_of_lt {a b : CDate} (h : CDate.lt a b) : CDate.le a b := by
  unfold CDate.lt at h; unfold CDate.le; omega

theorem CDate.lt_trans {a b c : CDate} (h₁ : CDate.lt a b) (h₂ : CDate.lt b c) :
    CDate.lt a c := by
  unfold CDate.lt at *; omega

theorem CDate.le_trans {a b c : CDate} (h₁ : CDate.le a b) (h₂ : CDate.le b c) :
    CDate.le a c := by
  unfold CDate.le at *; omega

theorem CDate.lt_of_lt_of_le {a b c : CDate} (h₁ : CDate.lt a b) (h₂ : CDate.le b c) :
    CDate.lt a c := by
  unfold CDate.lt at *; unfold CDate.le at h₂; omega

theorem CDate.lt_of_le_of_lt {a b c : CDate} (h₁ : CDate.le a b) (h₂ : CDate.lt b c) :
    CDate.lt a c := by
  unfold CDate.le at h₁; unfold CDate.lt at *; omega

theorem CDate.le_of_not_lt {a b : CDate} (h : ¬ CDate.lt a b) : CDate.le b a := by
  unfold CDate.lt at h; unfold CDate.le; omega

theorem CDate.not_lt_of_le {a b : CDate} (h : CDate.le a b) : ¬ CDate.lt b a := by
  unfold CDate.le at h; unfold CDate.lt; omega

/-- Gregorian leap-year test, as `calendar.isleap`. -/
def isLeap (y : ℤ) : Bool :=
  (y % 4 == 0 && y % 100 != 0) || y % 400 == 0

/-- `calendar.monthrange(y, m)[1]`: the number of days of month `m` of
year `y` (`_last_dom` in `bills.py`). -/
def lastDom (y : ℤ) (m : ℕ) : ℕ :=
  if m = 2 then (if isLeap y then 29 else 28)
  else if m = 4 ∨ m = 6 ∨ m = 9 ∨ m = 11 then 30
  else 31

theorem lastDom_le (y : ℤ) (m : ℕ) : lastDom y m ≤ 31 := by
  unfold lastDom; split_ifs <;> omega

theorem lastDom_pos (y : ℤ) (m : ℕ) : 1 ≤ lastDom y m := by
  unfold lastDom; split_ifs <;> omega

theorem lastDom_ge_28 (y : ℤ) (m : ℕ) : 28 ≤ lastDom y m := by
  unfold lastDom; split_ifs <;> omega

/-- The day after `c` (what `c + timedelta(days=1)` computes on valid dates). -/
def succD (c : CDate) : CDate :=
  if c.d < lastDom c.y c.m then ⟨c.y, c.m, c.d + 1⟩
  else if c.m < 12 then ⟨c.y, c.m + 1, 1⟩
  else ⟨c.y + 1, 1, 1⟩

/-- The day before `c` (what `c - timedelta(days=1)` computes on valid dates). -/
def predD (c : CDate) : CDate :=
  if 1 < c.d then ⟨c.y, c.m, c.d - 1⟩
  else if 1 < c.m then ⟨c.y, c.m - 1, lastDom c.y (c.m - 1)⟩
  else ⟨c.y - 1, 12, 31⟩

/-- `c + timedelta(days=n)`. -/
def addDaysC (n : ℕ) (c : CDate) : CDate := succD^[n] c

/-- `c - timedelta(days=n)`. -/
def subDaysC (n : ℕ) (c : CDate) : CDate := predD^[n] c

theorem succD_gt (c : CDate) : CDate.lt c (succD c) := by
  unfold succD CDate.lt
  split_ifs <;> simp <;> omega

theorem succD_day_le (c : CDate) : (succD c).d ≤ 31 := by
  unfold succD
  have := lastDom_le c.y c.m
  split_ifs <;> simp <;> omega

theorem lt_addDaysC {n : ℕ} (hn : 0 < n) (c : CDate) : CDate.lt c (addDaysC n c) := by
  induction n with
  | zero => omega
  | succ k ih =>
    rw [addDaysC, Function.iterate_succ_apply']
    rcases Nat.eq_zero_or_pos k with hk | hk
    · subst hk; simpa [addDaysC] using succD_gt c
    · exact CDate.lt_trans (ih hk) (succD_gt _)

theorem le_addDaysC (n : ℕ) (c : CDate) : CDate.le c (addDaysC n c) := by
  rcases Nat.eq_zero_or_pos n with h | h
  · subst h; simpa [addDaysC] using CDate.le_refl c
  · exact CDate.le_of_lt (lt_addDaysC h c)

/-- Size measure used only for termination of the enumerator loops.
Months and days are capped so that the measure is well behaved even on
out-of-range triples (which Python's `date` cannot represent). -/
def muD (c : CDate) : ℤ := 500 * c.y + 31 * (min c.m 12 : ℤ) + (min c.d 32 : ℤ)

theorem muD_succD_ge (c : CDate) : muD c ≤ muD (succD c) := by
  unfold muD succD
  have h1 := lastDom_le c.y c.m
  split_ifs <;> simp <;> omega

theorem muD_succD_strict (c : CDate) (hd : c.d ≤ 31) : muD c + 1 ≤ muD (succD c) := by
  unfold muD succD
  have h1 := lastDom_le c.y c.m
  split_ifs <;> simp <;> omega

theorem muD_addDaysC7 (c : CDate) : muD c + 1 ≤ muD (addDaysC 7 c) := by
  have e : addDaysC 7 c = succD (succD (succD (succD (succD (succD (succD c)))))) := by
    simp [addDaysC, Function.iterate_succ_apply, Function.iterate_zero]
  have h0 := muD_succD_ge c
  have h1 := muD_succD_strict (succD c) (succD_day_le c)
  have h2 := muD_succD_strict (succD (succD c)) (succD_day_le _)
  have h3 := muD_succD_strict (succD (succD (succD c))) (succD_day_le _)
  have h4 := muD_succD_strict (succD (succD (succD (succD c)))) (succD_day_le _)
  have h5 := muD_succD_strict (succD (succD (succD (succD (succD c))))) (succD_day_le _)
  have h6 := muD_succD_strict (succD (succD (succD (succD (succD (succD c)))))) (succD_day_le _)
  rw [e]; omega

theorem muD_le_of_le {a b : CDate} (h : CDate.le a b) : muD a ≤ muD b + 32 := by
  unfold CDate.le at h; unfold muD; omega

/-! ## Weekly branch of the recurrence calculator, over ordinals

`_next_due_date` (bills.py:91-97) for a weekly bill uses only
`date.weekday()` and `date + timedelta(days=delta)`, so it is modelled over
Python ordinals: `date.toordinal` maps 0001-01-01 (a Monday, weekday 0) to
1, and `d.weekday() == (d.toordinal() - 1) % 7`. -/

/-- `date.fromordinal(d).weekday()`: 0 = Monday .. 6 = Sunday. -/
def pyWeekday (d : ℤ) : ℤ := (d - 1) % 7

/-- Weekly branch of `_next_due_date` (bills.py:91-97): if the bill has no
weekday, return `ref`; otherwise `ref + (weekday - ref.weekday()) % 7`. -/
def nextDueWeeklyOrd (weekday : Option ℤ) (ref : ℤ) : ℤ :=
  match weekday with
  | none => ref
  | some wd => ref + (wd - pyWeekday ref) % 7

/-! ## Monthly/yearly branches of the recurrence calculator, over civil dates -/

/-- Bill frequencies (`Freq` in bills.py). -/
inductive Freq where
  | weekly
  | monthly
  | yearly
deriving DecidableEq, Repr

/-- The schedule fields of a bill row, as `_row_to_bill` returns them.
For the civil-date model the weekday anchor is kept as well (it is only
inspected for presence by the enumerator dispatch). -/
structure Bill where
  id : String
  name : String
  amount : ℚ
  frequency : Freq
  weekday : Option ℕ
  day_of_month : Option ℕ
  start_date : Option CDate
  end_date : Option CDate
deriving DecidableEq, Repr

/-- `(y - 1, 12) if m == 1 else (y, m - 1)` (`_prev_month` in bills.py). -/
def prevMonth (y : ℤ) (m : ℕ) : ℤ × ℕ :=
  if m = 1 then (y - 1, 12) else (y, m - 1)

/-- `(y + 1, 1) if m == 12 else (y, m + 1)` (the month advance inside
`_next_due_date` and `_monthly_due_dates`). -/
def nextMonth (y : ℤ) (m : ℕ) : ℤ × ℕ :=
  if m = 12 then (y + 1, 1) else (y, m + 1)

/-- The pre-clamp monthly candidate of `_next_due_date` (bills.py:99-108):
this month's day-of-month (clamped to the month length), or next month's if
that date is already past. -/
def monthlyCandidate (dom : ℕ) (ref : CDate) : CDate :=
  if CDate.lt ⟨ref.y, ref.m, min dom (lastDom ref.y ref.m)⟩ ref then
    ⟨(nextMonth ref.y ref.m).1, (nextMonth ref.y ref.m).2,
      min dom (lastDom (nextMonth ref.y ref.m).1 (nextMonth ref.y ref.m).2)⟩
  else ⟨ref.y, ref.m, min dom (lastDom ref.y ref.m)⟩

/-- The pre-clamp yearly candidate of `_next_due_date` (bills.py:118-125). -/
def yearlyCandidate (anchor : CDate) (ref : CDate) : CDate :=
  if CDate.lt ⟨ref.y, anchor.m, min anchor.d (lastDom ref.y anchor.m)⟩ ref then
    ⟨ref.y + 1, anchor.m, min anchor.d (lastDom (ref.y + 1) anchor.m)⟩
  else ⟨ref.y, anchor.m, min anchor.d (lastDom ref.y anchor.m)⟩

/-- The start-date clamp of `_next_due_date` (bills.py:112-114, 128-129):
raise the result to `start_date` when it precedes it. -/
def clampStart (b : Bill) (d : CDate) : CDate :=
  match b.start_date with
  | some s => if CDate.lt d s then s else d
  | none => d

/-- The end/start clamping of `_next_due_date` (bills.py:109-115, 126-130):
a result past `end_date` is returned as `end_date` directly (the start check
is then skipped); otherwise the start clamp applies. -/
def clampBounds (b : Bill) (d : CDate) : CDate :=
  match b.end_date with
  | some e => if CDate.lt e d then e else clampStart b d
  | none => clampStart b d

/-- `day_of_month or 1` (bills.py:100): Python's `or` replaces a missing or
zero value with 1. -/
def domOr1 (o : Option ℕ) : ℕ :=
  match o with
  | none => 1
  | some v => if v = 0 then 1 else v

/-- `date.toordinal` on a civil triple: the proleptic-Gregorian day number
with 0001-01-01 ↦ 1 (standard days-from-civil formula).  Only used
executably (for weekdays and day differences); no theorem depends on its
internals. -/
def toOrdinal (c : CDate) : ℤ :=
  let y : ℤ := if c.m ≤ 2 then c.y - 1 else c.y
  let era : ℤ := y / 400
  let yoe : ℤ := y - era * 400
  let mp : ℤ := if 2 < c.m then (c.m : ℤ) - 3 else (c.m : ℤ) + 9
  let doy : ℤ := (153 * mp + 2) / 5 + (c.d : ℤ) - 1
  let doe : ℤ := yoe * 365 + yoe / 4 - yoe / 100 + doy
  era * 146097 + doe - 719468 + 719163

/-- `date.weekday()` on a civil triple (0 = Monday .. 6 = Sunday). -/
def pyWeekdayC (c : CDate) : ℤ := (toOrdinal c - 1) % 7

/-- `_next_due_date(bill, ref)` (bills.py:87-130) over civil dates.  The
weekly branch is the ordinal computation of `nextDueWeeklyOrd`, transcribed
to civil day stepping; it returns before any start/end clamping, as in the
source. -/
def nextDueDate (b : Bill) (ref : CDate) : CDate :=
  match b.frequency with
  | .weekly =>
    match b.weekday with
    | none => ref
    | some wd => addDaysC (((wd : ℤ) - pyWeekdayC ref) % 7).toNat ref
  | .monthly => clampBounds b (monthlyCandidate (domOr1 b.day_of_month) ref)
  | .yearly =>
    let anchor := b.start_date.getD ⟨ref.y, 1, 1⟩
    clampBounds b (yearlyCandidate anchor ref)

/-- `_previous_due_date(bill, due)` (bills.py:55-85). -/
def previousDueDate (b : Bill) (due : CDate) : CDate :=
  match b.frequency with
  | .weekly => subDaysC 7 due
  | .monthly =>
    match b.day_of_month with
    | none => ⟨due.y, due.m, 1⟩
    | some day =>
      if day = 0 then ⟨due.y, due.m, 1⟩
      else
        let p := prevMonth due.y due.m
        let prevDue : CDate := ⟨p.1, p.2, min day (lastDom p.1 p.2)⟩
        match b.start_date with
        | some s => if CDate.lt prevDue s then s else prevDue
        | none => prevDue
  | .yearly =>
    let anchor := b.start_date.getD ⟨due.y, 1, 1⟩
    let py := due.y - 1
    let prevDue : CDate := ⟨py, anchor.m, min anchor.d (lastDom py anchor.m)⟩
    match b.start_date with
    | some s => if CDate.lt prevDue s then s else prevDue
    | none => prevDue

/-- One schedule period before `c` for a monthly schedule: the same day in
the previous calendar month. -/
def monthBefore (c : CDate) : CDate :=
  ⟨(prevMonth c.y c.m).1, (prevMonth c.y c.m).2, c.d⟩

/-- One schedule period before `c`: 7 days (weekly), one calendar month
(monthly) or one calendar year (yearly). -/
def minusOnePeriod (b : Bill) (c : CDate) : CDate :=
  match b.frequency with
  | .weekly => subDaysC 7 c
  | .monthly => monthBefore c
  | .yearly => ⟨c.y - 1, c.m, c.d⟩

/-- The frequency-required anchor is present (what `create_bill`
validates at bills.py:200-205; `day_of_month` is validated `ge=1`). -/
def ValidSchedule (b : Bill) : Prop :=
  match b.frequency with
  | .weekly => b.weekday.isSome = true
  | .monthly =>
    match b.day_of_month with
    | none => False
    | some dom => 1 ≤ dom
  | .yearly => b.start_date.isSome = true

/-- No clamping is in effect for `next_due_date(b, ref)` and for
`previous_due_date` at the resulting due date: no start/end bound fires and
no month-length (Feb-29 style) clamp fires in either direction. -/
def NoClampAt (b : Bill) (ref : CDate) : Prop :=
  match b.frequency with
  | .weekly => True
  | .monthly =>
    b.start_date = none ∧ b.end_date = none ∧
    (match b.day_of_month with
     | none => True
     | some dom =>
       let c := monthlyCandidate dom ref
       dom ≤ lastDom c.y c.m ∧
       dom ≤ lastDom (prevMonth c.y c.m).1 (prevMonth c.y c.m).2)
  | .yearly =>
    b.end_date = none ∧
    (match b.start_date with
     | none => True
     | some a =>
       let c := yearlyCandidate a ref
       a.d ≤ lastDom c.y a.m ∧ a.d ≤ lastDom (c.y - 1) a.m ∧
       ¬ CDate.lt c a ∧
       ¬ CDate.lt (⟨c.y - 1, a.m, min a.d (lastDom (c.y - 1) a.m)⟩ : CDate) a)

theorem monthlyCandidate_day (dom : ℕ) (ref : CDate) :
    (monthlyCandidate dom ref).d =
      min dom (lastDom (monthlyCandidate dom ref).y (monthlyCandidate dom ref).m) := by
  unfold monthlyCandidate
  split_ifs <;> rfl

theorem yearlyCandidate_month (a ref : CDate) : (yearlyCandidate a ref).m = a.m := by
  unfold yearlyCandidate
  split_ifs <;> rfl

theorem yearlyCandidate_day (a ref : CDate) :
    (yearlyCandidate a ref).d = min a.d (lastDom (yearlyCandidate a ref).y a.m) := by
  unfold yearlyCandidate
  split_ifs <;> rfl

/-- C3: for every weekly schedule (weekday anchor `wd` present and in
0..6) and every reference ordinal, the weekly branch of `_next_due_date`
returns the smallest ordinal ≥ ref whose weekday is `wd`. -/
theorem weekly_next_due_smallest (wd ref : ℤ) (h0 : 0 ≤ wd) (h7 : wd < 7) :
    pyWeekday (nextDueWeeklyOrd (some wd) ref) = wd ∧
    ref ≤ nextDueWeeklyOrd (some wd) ref ∧
    ∀ d : ℤ, ref ≤ d → pyWeekday d = wd → nextDueWeeklyOrd (some wd) ref ≤ d := by
  simp only [nextDueWeeklyOrd, pyWeekday]
  refine ⟨by omega, by omega, ?_⟩
  intro d hd hwd
  omega

/-- Witness for `weekly_next_due_smallest`: weekday 2 (Wednesday) from
2024-01-01 (ordinal 738886, a Monday); the minimality is sampled at the
following Wednesday, ordinal 738888. -/
theorem weekly_next_due_smallest_witness :
    pyWeekday (nextDueWeeklyOrd (some 2) 738886) = 2 ∧
    (738886 : ℤ) ≤ nextDueWeeklyOrd (some 2) 738886 ∧
    nextDueWeeklyOrd (some 2) 738886 ≤ 738888 :=
  ⟨(weekly_next_due_smallest 2 738886 (by norm_num) (by norm_num)).1,
   (weekly_next_due_smallest 2 738886 (by norm_num) (by norm_num)).2.1,
   (weekly_next_due_smallest 2 738886 (by norm_num) (by norm_num)).2.2 738888
     (by norm_num) (by decide)⟩

/-- C4: for a valid schedule and a reference date at which no clamping
(start/end bound, month-length clamp) is in effect,
`previous_due_date(b, next_due_date(b, ref))` is `next_due_date(b, ref)`
minus one period: 7 days for weekly, one calendar month for monthly, one
calendar year for yearly. -/
theorem prev_of_next_is_one_period (b : Bill) (ref : CDate)
    (hv : ValidSchedule b) (hnc : NoClampAt b ref) :
    previousDueDate b (nextDueDate b ref) = minusOnePeriod b (nextDueDate b ref) := by
  cases hf : b.frequency with
  | weekly =>
    simp [previousDueDate, minusOnePeriod, hf]
  | monthly =>
    simp only [ValidSchedule, hf] at hv
    simp only [NoClampAt, hf] at hnc
    obtain ⟨hs, he, hc⟩ := hnc
    cases hdom : b.day_of_month with
    | none => rw [hdom] at hv; exact absurd hv id
    | some dom =>
      rw [hdom] at hv hc
      have hdz : ¬ dom = 0 := by omega
      simp only [nextDueDate, hf, clampBounds, he, clampStart, hs, domOr1, hdom, if_neg hdz]
      simp only [previousDueDate, hf, hdom, if_neg hdz, hs, minusOnePeriod, monthBefore]
      have hd := monthlyCandidate_day dom ref
      obtain ⟨h1, h2⟩ := hc
      simp only [CDate.mk.injEq]
      refine ⟨trivial, trivial, ?_⟩
      omega
  | yearly =>
    simp only [ValidSchedule, hf] at hv
    simp only [NoClampAt, hf] at hnc
    obtain ⟨he, hc⟩ := hnc
    cases hsd : b.start_date with
    | none => rw [hsd] at hv; simp at hv
    | some a =>
      rw [hsd] at hc
      obtain ⟨h1, h2, h3, h4⟩ := hc
      have hm := yearlyCandidate_month a ref
      have hd := yearlyCandidate_day a ref
      simp only [nextDueDate, hf, hsd, Option.getD_some, clampBounds, he, clampStart,
        if_neg h3]
      have hd' : (yearlyCandidate a ref).d = a.d := by omega
      have h4' : ¬ CDate.lt
          (⟨(yearlyCandidate a ref).y - 1, a.m,
            min a.d (lastDom ((yearlyCandidate a ref).y - 1) a.m)⟩ : CDate) a := h4
      simp only [previousDueDate, hf, hsd, Option.getD_some, if_neg h4', minusOnePeriod]
      simp only [CDate.mk.injEq]
      refine ⟨trivial, hm.symm, ?_⟩
      omega

/-- Witness for `prev_of_next_is_one_period`: a monthly bill due on the
15th, referenced from 2024-03-10; the previous due date of 2024-03-15 is
2024-02-15, one calendar month earlier. -/
theorem prev_of_next_is_one_period_witness :
    previousDueDate ⟨"rent", "Rent", 100, .monthly, none, some 15, none, none⟩
        (nextDueDate ⟨"rent", "Rent", 100, .monthly, none, some 15, none, none⟩ ⟨2024, 3, 10⟩) =
      minusOnePeriod ⟨"rent", "Rent", 100, .monthly, none, some 15, none, none⟩
        (nextDueDate ⟨"rent", "Rent", 100, .monthly, none, some 15, none, none⟩ ⟨2024, 3, 10⟩) :=
  prev_of_next_is_one_period _ _ (by norm_num [ValidSchedule])
    (by exact ⟨rfl, rfl, by decide⟩)

/-! ## Occurrence enumerators (bills.py:132-163) -/

theorem nextMonth_idx (y : ℤ) (m : ℕ) (h1 : 1 ≤ m) (h12 : m ≤ 12) :
    12 * (nextMonth y m).1 + ((nextMonth y m).2 : ℤ) = 12 * y + m + 1 := by
  unfold nextMonth
  split_ifs with h
  · subst h; push_cast; ring
  · push_cast [Nat.cast_sub]; omega

/-- The loop of `_weekly_due_dates` (bills.py:147-150): yield `d`, step 7
days, stop once `d > end`. -/
def weeklyFromC (d e : CDate) : List CDate :=
  if h : CDate.le d e then d :: weeklyFromC (addDaysC 7 d) e else []
termination_by (muD e + 33 - muD d).toNat
decreasing_by
  have h1 := muD_addDaysC7 d
  have h2 := muD_le_of_le h
  omega

/-- `_weekly_due_dates(weekday, start, end)` (bills.py:143-150): first
occurrence of `weekday` at/after `start`, then every 7 days. -/
def weeklyDueDatesC (weekday : ℕ) (s e : CDate) : List CDate :=
  weeklyFromC (addDaysC (((weekday : ℤ) - pyWeekdayC s) % 7).toNat s) e

/-- The loop of `_monthly_due_dates` (bills.py:132-141): month by month from
`(y, m)` while `date(y, m, 1) ≤ end`, yielding the day-of-month clamped to
the month length whenever it falls inside `[start, end]`.  Python's `date`
constructor only accepts months 1..12 (the loop never leaves that range);
the guard makes the Lean function total. -/
def monthlyFrom (day : ℕ) (s e : CDate) (y : ℤ) (m : ℕ) : List CDate :=
  if hm : 1 ≤ m ∧ m ≤ 12 then
    if h : CDate.le ⟨y, m, 1⟩ e then
      (if CDate.le s ⟨y, m, min day (lastDom y m)⟩ ∧
          CDate.le ⟨y, m, min day (lastDom y m)⟩ e
       then [(⟨y, m, min day (lastDom y m)⟩ : CDate)] else []) ++
        monthlyFrom day s e (nextMonth y m).1 (nextMonth y m).2
    else []
  else []
termination_by (12 * e.y + (e.m : ℤ) + 13 - (12 * y + (m : ℤ))).toNat
decreasing_by
  have hn := nextMonth_idx y m hm.1 hm.2
  unfold CDate.le at h
  simp only at h
  omega

/-- The date tried for year `y` by `_yearly_due_dates` (bills.py:156-160):
`date(y, anchor.month, anchor.day)`, falling back to the clamped day when
that raises (Feb 29 in a non-leap year). -/
def yearlyEntry (am ad : ℕ) (y : ℤ) : CDate :=
  if ad ≤ lastDom y am then ⟨y, am, ad⟩ else ⟨y, am, min ad (lastDom y am)⟩

theorem yearlyEntry_y (am ad : ℕ) (y : ℤ) : (yearlyEntry am ad y).y = y := by
  unfold yearlyEntry; split_ifs <;> rfl

theorem yearlyEntry_m (am ad : ℕ) (y : ℤ) : (yearlyEntry am ad y).m = am := by
  unfold yearlyEntry; split_ifs <;> rfl

/-- The loop of `_yearly_due_dates` (bills.py:152-163): year by year from
`y`, stopping once the entry passes `end`, yielding entries at/after
`start`. -/
def yearlyFrom (am ad : ℕ) (s e : CDate) (y : ℤ) : List CDate :=
  if h : CDate.lt e (yearlyEntry am ad y) then []
  else
    (if CDate.le s (yearlyEntry am ad y) then [yearlyEntry am ad y] else []) ++
      yearlyFrom am ad s e (y + 1)
termination_by (e.y + 1 - y).toNat
decreasing_by
  have h1 := CDate.le_of_not_lt h
  have h2 := yearlyEntry_y am ad y
  unfold CDate.le at h1
  omega

/-- The effective window start for a bill (bills.py:294):
`max(date_from, start_date)` when a start bound exists. -/
def effStart (b : Bill) (dateFrom : CDate) : CDate :=
  match b.start_date with
  | some sd => if CDate.lt dateFrom sd then sd else dateFrom
  | none => dateFrom

/-- The effective window end for a bill (bills.py:295):
`min(date_to, end_date)` when an end bound exists. -/
def effEnd (b : Bill) (dateTo : CDate) : CDate :=
  match b.end_date with
  | some ed => if CDate.lt ed dateTo then ed else dateTo
  | none => dateTo

/-- The due dates one bill contributes to `occurrences` (bills.py:292-308):
intersect the caller window with the schedule bounds, skip the bill when
the intersection is empty or its frequency anchor is missing, otherwise
run the frequency's enumerator. -/
def billDueDates (b : Bill) (dateFrom dateTo : CDate) : List CDate :=
  if CDate.lt (effEnd b dateTo) (effStart b dateFrom) then []
  else
    match b.frequency with
    | .weekly =>
      match b.weekday with
      | none => []
      | some wd => weeklyDueDatesC wd (effStart b dateFrom) (effEnd b dateTo)
    | .monthly =>
      match b.day_of_month with
      | none => []
      | some day =>
        monthlyFrom day (effStart b dateFrom) (effEnd b dateTo)
          (effStart b dateFrom).y (effStart b dateFrom).m
    | .yearly =>
      match b.start_date with
      | none => []
      | some anchor =>
        yearlyFrom anchor.m anchor.d (effStart b dateFrom) (effEnd b dateTo)
          (max (effStart b dateFrom).y anchor.y)

theorem weeklyFromC_mem {d e x : CDate} (hx : x ∈ weeklyFromC d e) :
    CDate.le d x ∧ CDate.le x e := by
  induction d, e using weeklyFromC.induct with
  | case1 d e h ih =>
    rw [weeklyFromC, dif_pos h] at hx
    rcases List.mem_cons.mp hx with rfl | hx'
    · exact ⟨CDate.le_refl x, h⟩
    · obtain ⟨h1, h2⟩ := ih hx'
      exact ⟨CDate.le_trans (le_addDaysC 7 d) h1, h2⟩
  | case2 d e h =>
    rw [weeklyFromC, dif_neg h] at hx
    simp at hx

theorem weeklyFromC_pairwise (d e : CDate) : List.Pairwise CDate.lt (weeklyFromC d e) := by
  induction d, e using weeklyFromC.induct with
  | case1 d e h ih =>
    rw [weeklyFromC, dif_pos h]
    refine List.Pairwise.cons ?_ ih
    intro x hx
    exact CDate.lt_of_lt_of_le (lt_addDaysC (by norm_num) d) (weeklyFromC_mem hx).1
  | case2 d e h =>
    rw [weeklyFromC, dif_neg h]
    exact List.Pairwise.nil

theorem monthlyFrom_mem {day : ℕ} {s e : CDate} {y : ℤ} {m : ℕ} {x : CDate}
    (hx : x ∈ monthlyFrom day s e y m) : CDate.le s x ∧ CDate.le x e := by
  induction y, m using monthlyFrom.induct day s e with
  | case1 y m hm h ih =>
    rw [monthlyFrom, dif_pos hm, dif_pos h] at hx
    rcases List.mem_append.mp hx with hl | hr
    · split_ifs at hl with hcond
      · rcases List.mem_singleton.mp hl with rfl
        exact hcond
      · simp at hl
    · exact ih hr
  | case2 y m hm h =>
    rw [monthlyFrom, dif_pos hm, dif_neg h] at hx
    simp at hx
  | case3 y m hm =>
    rw [monthlyFrom, dif_neg hm] at hx
    simp at hx

theorem monthlyFrom_idx {day : ℕ} {s e : CDate} {y : ℤ} {m : ℕ} {x : CDate}
    (hx : x ∈ monthlyFrom day s e y m) :
    12 * y + (m : ℤ) ≤ 12 * x.y + x.m ∧ 1 ≤ x.m ∧ x.m ≤ 12 := by
  induction y, m using monthlyFrom.induct day s e with
  | case1 y m hm h ih =>
    rw [monthlyFrom, dif_pos hm, dif_pos h] at hx
    rcases List.mem_append.mp hx with hl | hr
    · split_ifs at hl with hcond
      · rcases List.mem_singleton.mp hl with rfl
        simpa using hm
      · simp at hl
    · have hn := nextMonth_idx y m hm.1 hm.2
      have := ih hr
      omega
  | case2 y m hm h =>
    rw [monthlyFrom, dif_pos hm, dif_neg h] at hx
    simp at hx
  | case3 y m hm =>
    rw [monthlyFrom, dif_neg hm] at hx
    simp at hx

theorem CDate.lt_of_idx {a b : CDate} (ha1 : 1 ≤ a.m) (ha2 : a.m ≤ 12)
    (hb1 : 1 ≤ b.m) (hb2 : b.m ≤ 12)
    (h : 12 * a.y + (a.m : ℤ) < 12 * b.y + b.m) : CDate.lt a b := by
  unfold CDate.lt; omega

theorem monthlyFrom_pairwise (day : ℕ) (s e : CDate) (y : ℤ) (m : ℕ) :
    List.Pairwise CDate.lt (monthlyFrom day s e y m) := by
  induction y, m using monthlyFrom.induct day s e with
  | case1 y m hm h ih =>
    rw [monthlyFrom, dif_pos hm, dif_pos h]
    split_ifs with hcond
    · refine List.Pairwise.cons ?_ ih
      intro x hx
      have hi := monthlyFrom_idx hx
      have hn := nextMonth_idx y m hm.1 hm.2
      refine CDate.lt_of_idx ?_ ?_ hi.2.1 hi.2.2 ?_ <;> simp <;> omega
    · simpa using ih
  | case2 y m hm h =>
    rw [monthlyFrom, dif_pos hm, dif_neg h]
    exact List.Pairwise.nil
  | case3 y m hm =>
    rw [monthlyFrom, dif_neg hm]
    exact List.Pairwise.nil

theorem yearlyFrom_mem {am ad : ℕ} {s e : CDate} {y : ℤ} {x : CDate}
    (hx : x ∈ yearlyFrom am ad s e y) : CDate.le s x ∧ CDate.le x e := by
  induction y using yearlyFrom.induct am ad s e with
  | case1 y h =>
    rw [yearlyFrom, dif_pos h] at hx
    simp at hx
  | case2 y h ih =>
    rw [yearlyFrom, dif_neg h] at hx
    rcases List.mem_append.mp hx with hl | hr
    · split_ifs at hl with hcond
      · rcases List.mem_singleton.mp hl with rfl
        exact ⟨hcond, CDate.le_of_not_lt h⟩
      · simp at hl
    · exact ih hr

theorem yearlyFrom_year {am ad : ℕ} {s e : CDate} {y : ℤ} {x : CDate}
    (hx : x ∈ yearlyFrom am ad s e y) : y ≤ x.y := by
  induction y using yearlyFrom.induct am ad s e with
  | case1 y h =>
    rw [yearlyFrom, dif_pos h] at hx
    simp at hx
  | case2 y h ih =>
    rw [yearlyFrom, dif_neg h] at hx
    rcases List.mem_append.mp hx with hl | hr
    · split_ifs at hl with hcond
      · rcases List.mem_singleton.mp hl with rfl
        rw [yearlyEntry_y]
      · simp at hl
    · have := ih hr
      omega

theorem yearlyFrom_pairwise (am ad : ℕ) (s e : CDate) (y : ℤ) :
    List.Pairwise CDate.lt (yearlyFrom am ad s e y) := by
  induction y using yearlyFrom.induct am ad s e with
  | case1 y h =>
    rw [yearlyFrom, dif_pos h]
    exact List.Pairwise.nil
  | case2 y h ih =>
    rw [yearlyFrom, dif_neg h]
    split_ifs with hcond
    · refine List.Pairwise.cons ?_ ih
      intro x hx
      have h1 := yearlyFrom_year hx
      have h2 := yearlyEntry_y am ad y
      unfold CDate.lt
      omega
    · simpa using ih

/-- C8: for every schedule and caller window, the enumerated due dates form
a finite strictly-ascending list, every element lies inside the
intersection of the caller window with the schedule's own bounds, and the
list is empty when that intersection is empty. -/
theorem billDueDates_spec (b : Bill) (dateFrom dateTo : CDate) :
    List.Pairwise CDate.lt (billDueDates b dateFrom dateTo) ∧
    (∀ x ∈ billDueDates b dateFrom dateTo,
      CDate.le (effStart b dateFrom) x ∧ CDate.le x (effEnd b dateTo)) ∧
    (CDate.lt (effEnd b dateTo) (effStart b dateFrom) →
      billDueDates b dateFrom dateTo = []) := by
  refine ⟨?_, ?_, ?_⟩
  · unfold billDueDates
    split_ifs with hw
    · exact List.Pairwise.nil
    · cases b.frequency with
      | weekly =>
        cases b.weekday with
        | none => exact List.Pairwise.nil
        | some wd => exact weeklyFromC_pairwise _ _
      | monthly =>
        cases b.day_of_month with
        | none => exact List.Pairwise.nil
        | some day => exact monthlyFrom_pairwise _ _ _ _ _
      | yearly =>
        cases b.start_date with
        | none => exact List.Pairwise.nil
        | some anchor => exact yearlyFrom_pairwise _ _ _ _ _
  · intro x hx
    unfold billDueDates at hx
    split_ifs at hx with hw
    · simp at hx
    · cases hf : b.frequency with
      | weekly =>
        simp only [hf] at hx
        cases hwd : b.weekday with
        | none => simp only [hwd] at hx; simp at hx
        | some wd =>
          simp only [hwd] at hx
          unfold weeklyDueDatesC at hx
          obtain ⟨h1, h2⟩ := weeklyFromC_mem hx
          exact ⟨CDate.le_trans (le_addDaysC _ _) h1, h2⟩
      | monthly =>
        simp only [hf] at hx
        cases hdm : b.day_of_month with
        | none => simp only [hdm] at hx; simp at hx
        | some day =>
          simp only [hdm] at hx
          exact monthlyFrom_mem hx
      | yearly =>
        simp only [hf] at hx
        cases hsd : b.start_date with
        | none => simp only [hsd] at hx; simp at hx
        | some anchor =>
          simp only [hsd] at hx
          exact yearlyFrom_mem hx
  · intro hw
    unfold billDueDates
    rw [if_pos hw]

/-- Witness for `billDueDates_spec`, exercising the empty-intersection
implication: a schedule that ends before the caller window starts yields no
occurrences. -/
theorem billDueDates_spec_witness :
    billDueDates ⟨"gym", "Gym", 30, .weekly, some 2, none, none, some ⟨2023, 12, 31⟩⟩
      ⟨2024, 1, 1⟩ ⟨2024, 1, 31⟩ = [] :=
  (billDueDates_spec ⟨"gym", "Gym", 30, .weekly, some 2, none, none, some ⟨2023, 12, 31⟩⟩
      ⟨2024, 1, 1⟩ ⟨2024, 1, 31⟩).2.2 (by decide)

/-! ## Money rounding -/

/-- Python `round(x, 2)` on ideal decimal values: round to a whole number
of cents.  On exact cent multiples — the only case the positive theorems
rely on — it is the identity (`round2_cents`), where Python's banker's
tie-break and this half-up rounding agree. -/
def round2 (q : ℚ) : ℚ := (round (q * 100) : ℤ) / 100

/-- Python `round(x, 4)`, used for the reported `priority_score`. -/
def round4 (q : ℚ) : ℚ := (round (q * 10000) : ℤ) / 10000

/-- `q` is a whole number of cents. -/
def Cents (q : ℚ) : Prop := ∃ n : ℤ, q = n / 100

theorem Cents.zero : Cents 0 := ⟨0, by norm_num⟩

theorem Cents.add {a b : ℚ} (ha : Cents a) (hb : Cents b) : Cents (a + b) := by
  obtain ⟨n, rfl⟩ := ha
  obtain ⟨k, rfl⟩ := hb
  exact ⟨n + k, by push_cast; ring⟩

theorem Cents.sub {a b : ℚ} (ha : Cents a) (hb : Cents b) : Cents (a - b) := by
  obtain ⟨n, rfl⟩ := ha
  obtain ⟨k, rfl⟩ := hb
  exact ⟨n - k, by push_cast; ring⟩

theorem Cents.neg {a : ℚ} (ha : Cents a) : Cents (-a) := by
  obtain ⟨n, rfl⟩ := ha
  exact ⟨-n, by push_cast; ring⟩

theorem Cents.min {a b : ℚ} (ha : Cents a) (hb : Cents b) : Cents (min a b) := by
  rcases min_choice a b with h | h <;> rw [h] <;> assumption

theorem Cents.max {a b : ℚ} (ha : Cents a) (hb : Cents b) : Cents (max a b) := by
  rcases max_choice a b with h | h <;> rw [h] <;> assumption

theorem round2_cents {q : ℚ} (h : Cents q) : round2 q = q := by
  obtain ⟨n, rfl⟩ := h
  unfold round2
  rw [div_mul_cancel₀ (b := (100 : ℚ)) _ (by norm_num), round_intCast]

/-! ## Period ledger aggregator (bills.py:170-189) -/

/-- A `bill_ledger` row: bill reference, `occurred_at` timestamp (civil
date plus microsecond of day — Python datetimes carry microsecond
precision), and the signed amount. -/
structure LedgerEntry where
  bill_id : String
  day : CDate
  micro : ℕ
  amount : ℚ
deriving DecidableEq, Repr

/-- Timestamp comparison: `(d1, u1) ≤ (d2, u2)`. -/
def tsLe (d1 : CDate) (u1 : ℕ) (d2 : CDate) (u2 : ℕ) : Prop :=
  CDate.lt d1 d2 ∨ (d1 = d2 ∧ u1 ≤ u2)

instance (d1 : CDate) (u1 : ℕ) (d2 : CDate) (u2 : ℕ) : Decidable (tsLe d1 u1 d2 u2) := by
  unfold tsLe; infer_instance

/-- The microsecond of day of `datetime.max.time()`, 23:59:59.999999. -/
def endOfDayMicro : ℕ := 86399999999

/-- The WHERE clause of `_ledger_sums` (bills.py:184): `bill_id = %s AND
occurred_at >= datetime.combine(start, min.time) AND occurred_at <=
datetime.combine(end, max.time)`. -/
def inLedgerWindow (bid : String) (s e : CDate) (x : LedgerEntry) : Bool :=
  x.bill_id == bid && decide (tsLe s 0 x.day x.micro) &&
    decide (tsLe x.day x.micro e endOfDayMicro)

/-- `_ledger_sums(bill_id, start, end)` (bills.py:170-189): one aggregate
pass over the matching rows computing `SUM(CASE WHEN amount > 0 THEN amount
ELSE 0 END)` and `SUM(CASE WHEN amount < 0 THEN -amount ELSE 0 END)`. -/
def ledger_sums (entries : List LedgerEntry) (bid : String) (s e : CDate) : ℚ × ℚ :=
  (entries.filter (inLedgerWindow bid s e)).foldr
    (fun x acc =>
      (acc.1 + (if 0 < x.amount then x.amount else 0),
       acc.2 + (if x.amount < 0 then -x.amount else 0)))
    (0, 0)

/-! ## Progress & priority scorer; occurrence records (bills.py:310-336) -/

/-- One entry of the `/bills/occurrences` response (bills.py:323-336). -/
structure Occ where
  bill_id : String
  name : String
  due : CDate
  amount : ℚ
  progress_pct : ℚ
  paid : Bool
  saved_so_far : ℚ
  contrib_sum : ℚ
  paid_sum : ℚ
  days_to_due : ℤ
  due_soon : Bool
  priority_score : ℚ
deriving DecidableEq, Repr

/-- The occurrence record built for one due date (bills.py:310-336):
period start is the previous due date (`_period_start_for`), sums come from
`_ledger_sums`, the paid flag uses the `1e-6` tolerance, progress/urgency
feed the priority score, and monetary outputs are rounded at this boundary
only. -/
def mkOcc (b : Bill) (due : CDate) (entries : List LedgerEntry) (today : CDate)
    (due_soon_days : ℕ) : Occ :=
  let period_start := previousDueDate b due
  let sums := ledger_sums entries b.id period_start due
  let amount := b.amount
  let paid : Bool := decide (amount - 1 / 1000000 ≤ sums.2)
  let progress : ℚ := if paid then 1 else max 0 (min 1 (sums.1 / amount))
  let days_to_due : ℤ := toOrdinal due - toOrdinal today
  let soon_weight : ℚ :=
    if days_to_due ≤ (due_soon_days : ℤ) then
      max 0 (1 - ((max days_to_due 0 : ℤ) : ℚ) / (due_soon_days : ℚ))
    else 0
  let score : ℚ := 0.6 * soon_weight + 0.4 * (1 - progress)
  { bill_id := b.id
    name := b.name
    due := due
    amount := amount
    progress_pct := round2 (progress * 100)
    paid := paid
    saved_so_far := round2 sums.1
    contrib_sum := round2 sums.1
    paid_sum := round2 sums.2
    days_to_due := days_to_due
    due_soon := decide (days_to_due ≤ (due_soon_days : ℤ))
    priority_score := round4 score }

/-- The occurrence records one bill contributes to the `/bills/occurrences`
response (bills.py:292-336): one record per enumerated due date. -/
def occurrencesForBill (b : Bill) (dateFrom dateTo : CDate)
    (entries : List LedgerEntry) (today : CDate) (due_soon_days : ℕ) : List Occ :=
  (billDueDates b dateFrom dateTo).map (fun due => mkOcc b due entries today due_soon_days)

theorem ledgerFold_spec (l : List LedgerEntry) :
    (l.foldr
        (fun x acc =>
          (acc.1 + (if 0 < x.amount then x.amount else 0),
           acc.2 + (if x.amount < 0 then -x.amount else 0)))
        ((0 : ℚ), (0 : ℚ))).1 =
      ((l.filter (fun x => decide (0 < x.amount))).map LedgerEntry.amount).sum ∧
    (l.foldr
        (fun x acc =>
          (acc.1 + (if 0 < x.amount then x.amount else 0),
           acc.2 + (if x.amount < 0 then -x.amount else 0)))
        ((0 : ℚ), (0 : ℚ))).2 =
      ((l.filter (fun x => decide (x.amount < 0))).map (fun x => -x.amount)).sum := by
  induction l with
  | nil => simp
  | cons x xs ih =>
    obtain ⟨ih1, ih2⟩ := ih
    constructor
    · simp only [List.foldr_cons, ih1, List.filter_cons, decide_eq_true_eq]
      split_ifs with h
      · simp [add_comm]
      · simp
    · simp only [List.foldr_cons, ih2, List.filter_cons, decide_eq_true_eq]
      split_ifs with h
      · simp [add_comm]
      · simp

/-- C5 (amended): `ledger_sums` filters the bill's entries to timestamps in
`[start 00:00:00, end 23:59:59.999999]` and returns `contributed` = the sum
of the positive amounts and `paid` = the sum of the magnitudes of the
negative amounts, both non-negative; and an occurrence is flagged paid
exactly when `paid ≥ amount − 1e-6`. -/
theorem ledger_sums_spec (entries : List LedgerEntry) (bid : String) (s e : CDate) :
    (ledger_sums entries bid s e).1 =
      (((entries.filter (inLedgerWindow bid s e)).filter
          (fun x => decide (0 < x.amount))).map LedgerEntry.amount).sum ∧
    (ledger_sums entries bid s e).2 =
      (((entries.filter (inLedgerWindow bid s e)).filter
          (fun x => decide (x.amount < 0))).map (fun x => -x.amount)).sum ∧
    0 ≤ (ledger_sums entries bid s e).1 ∧
    0 ≤ (ledger_sums entries bid s e).2 ∧
    (∀ (b : Bill) (due today : CDate) (dsd : ℕ),
      (mkOcc b due entries today dsd).paid = true ↔
        b.amount - 1 / 1000000 ≤ (ledger_sums entries b.id (previousDueDate b due) due).2) := by
  obtain ⟨h1, h2⟩ := ledgerFold_spec (entries.filter (inLedgerWindow bid s e))
  refine ⟨h1, h2, ?_, ?_, ?_⟩
  · rw [show (ledger_sums entries bid s e).1 =
        (((entries.filter (inLedgerWindow bid s e)).filter
          (fun x => decide (0 < x.amount))).map LedgerEntry.amount).sum from h1]
    apply List.sum_nonneg
    intro q hq
    obtain ⟨x, hx, rfl⟩ := List.mem_map.mp hq
    have := List.of_mem_filter hx
    simp at this
    linarith
  · rw [show (ledger_sums entries bid s e).2 =
        (((entries.filter (inLedgerWindow bid s e)).filter
          (fun x => decide (x.amount < 0))).map (fun x => -x.amount)).sum from h2]
    apply List.sum_nonneg
    intro q hq
    obtain ⟨x, hx, rfl⟩ := List.mem_map.mp hq
    have := List.of_mem_filter hx
    simp at this
    linarith
  · intro b due today dsd
    simp [mkOcc]

/-- C5 (counterexample to the stated bound): an entry timestamped at
23:59:59.999999 on the period end is counted by `_ledger_sums` (the SQL
upper bound is `datetime.max.time()`), although its timestamp is not inside
the claimed interval `[period_start 00:00:00, period_end 23:59:59]` — the
sum over that claimed interval is 0, not 5. -/
theorem ledger_sums_end_bound_counterexample :
    (ledger_sums [⟨"b", ⟨2024, 1, 31⟩, 86399999999, 5⟩] "b" ⟨2024, 1, 1⟩ ⟨2024, 1, 31⟩).1 = 5 ∧
    ¬ tsLe ⟨2024, 1, 31⟩ 86399999999 ⟨2024, 1, 31⟩ (86399 * 1000000) ∧
    ((([(⟨"b", ⟨2024, 1, 31⟩, 86399999999, 5⟩ : LedgerEntry)].filter
        (fun x => x.bill_id == "b" && decide (tsLe ⟨2024, 1, 1⟩ 0 x.day x.micro) &&
          decide (tsLe x.day x.micro ⟨2024, 1, 31⟩ (86399 * 1000000)))).filter
        (fun x => decide (0 < x.amount))).map LedgerEntry.amount).sum = 0 := by
  refine ⟨?_, by decide, ?_⟩
  · norm_num [ledger_sums, inLedgerWindow, tsLe, endOfDayMicro, CDate.lt, List.filter]
  · norm_num [tsLe, CDate.lt, List.filter]

/-- C9: a bill stored with its frequency-required anchor missing (weekly
without weekday, monthly without day_of_month, yearly without start_date)
contributes zero occurrences to the occurrences query; the computation is
total, so no error is raised. -/
theorem missing_anchor_no_occurrences (b : Bill) (dateFrom dateTo : CDate)
    (entries : List LedgerEntry) (today : CDate) (dsd : ℕ)
    (h : (b.frequency = .weekly ∧ b.weekday = none) ∨
         (b.frequency = .monthly ∧ b.day_of_month = none) ∨
         (b.frequency = .yearly ∧ b.start_date = none)) :
    occurrencesForBill b dateFrom dateTo entries today dsd = [] := by
  unfold occurrencesForBill billDueDates
  rcases h with ⟨hf, ha⟩ | ⟨hf, ha⟩ | ⟨hf, ha⟩ <;>
    simp only [hf, ha] <;> split_ifs <;> simp

/-- Witness for `missing_anchor_no_occurrences`: a weekly bill stored
without a weekday anchor yields zero occurrences. -/
theorem missing_anchor_no_occurrences_witness :
    occurrencesForBill ⟨"x", "X", 10, .weekly, none, none, none, none⟩
      ⟨2024, 1, 1⟩ ⟨2024, 12, 31⟩ [] ⟨2024, 1, 1⟩ 14 = [] :=
  missing_anchor_no_occurrences _ _ _ _ _ _ (Or.inl ⟨rfl, rfl⟩)

/-! ## Occurrence ordering (bills.py:338-339) -/

/-- The sort key of the occurrences listing:
`(due_soon, priority_score)`. -/
def occKey (o : Occ) : Bool × ℚ := (o.due_soon, o.priority_score)

/-- Python tuple comparison `occKey a ≤ occKey b`, with booleans ordered
`False < True`. -/
def occKeyLe (a b : Occ) : Prop :=
  (a.due_soon = false ∧ b.due_soon = true) ∨
  (a.due_soon = b.due_soon ∧ a.priority_score ≤ b.priority_score)

instance : DecidableRel occKeyLe := fun a b => by unfold occKeyLe; infer_instance

/-- The reversed key order used by the descending sort. -/
def occKeyGe (a b : Occ) : Prop := occKeyLe b a

instance : DecidableRel occKeyGe := fun a b => by unfold occKeyGe; infer_instance

theorem occKeyLe_total (a b : Occ) : occKeyLe a b ∨ occKeyLe b a := by
  unfold occKeyLe
  rcases le_total a.priority_score b.priority_score with h | h <;>
    cases ha : a.due_soon <;> cases hb : b.due_soon <;> tauto

theorem occKeyLe_trans {a b c : Occ} (h1 : occKeyLe a b) (h2 : occKeyLe b c) :
    occKeyLe a c := by
  unfold occKeyLe at *
  rcases h1 with ⟨h1a, h1b⟩ | ⟨h1a, h1b⟩ <;> rcases h2 with ⟨h2a, h2b⟩ | ⟨h2a, h2b⟩ <;>
    simp_all <;> linarith

instance : IsTotal Occ occKeyGe :=
  ⟨fun a b => by unfold occKeyGe; exact occKeyLe_total b a⟩

instance : IsTrans Occ occKeyGe :=
  ⟨fun a b c h1 h2 => by
    unfold occKeyGe at *
    exact occKeyLe_trans h2 h1⟩

theorem occKeyLe_of_key_eq {a b : Occ} (h : occKey a = occKey b) : occKeyLe a b := by
  unfold occKey at h
  unfold occKeyLe
  simp only [Prod.mk.injEq] at h
  exact Or.inr ⟨h.1, le_of_eq h.2⟩

/-- `out.sort(key=lambda x: (x["due_soon"], x["priority_score"]),
reverse=True)` (bills.py:339).  Python's sort is stable, and a stable
descending sort is exactly insertion by the "key at least" relation: each
element is placed before the first later element with a strictly smaller
key, and never moved across an equal key. -/
def sortOccDesc (l : List Occ) : List Occ :=
  List.insertionSort occKeyGe l

theorem orderedInsert_filter_key (x : Occ) (l : List Occ) (k : Bool × ℚ) :
    (List.orderedInsert occKeyGe x l).filter (fun z => decide (occKey z = k)) =
      if occKey x = k then x :: l.filter (fun z => decide (occKey z = k))
      else l.filter (fun z => decide (occKey z = k)) := by
  induction l with
  | nil =>
    simp only [List.orderedInsert, List.filter_cons, List.filter_nil, decide_eq_true_eq]
  | cons y ys ih =>
    rw [List.orderedInsert]
    by_cases hr : occKeyGe x y
    · rw [if_pos hr]
      by_cases hk : occKey x = k
      · rw [if_pos hk]
        simp only [List.filter_cons, decide_eq_true_eq, if_pos hk]
      · rw [if_neg hk]
        simp only [List.filter_cons, decide_eq_true_eq, if_neg hk]
    · rw [if_neg hr]
      by_cases hk : occKey x = k
      · have hyk : ¬ occKey y = k := by
          intro hy
          exact hr (show occKeyGe x y from occKeyLe_of_key_eq (by rw [hy, hk]))
        rw [if_pos hk]
        simp only [List.filter_cons, decide_eq_true_eq, if_neg hyk, ih, if_pos hk]
      · rw [if_neg hk]
        simp only [List.filter_cons, decide_eq_true_eq, ih, if_neg hk]

theorem sortOccDesc_filter_key (l : List Occ) (k : Bool × ℚ) :
    (sortOccDesc l).filter (fun z => decide (occKey z = k)) =
      l.filter (fun z => decide (occKey z = k)) := by
  induction l with
  | nil => rfl
  | cons x xs ih =>
    rw [sortOccDesc, List.insertionSort, orderedInsert_filter_key]
    rw [show List.insertionSort occKeyGe xs = sortOccDesc xs from rfl, ih, List.filter_cons]
    simp only [decide_eq_true_eq]

/-- C2 (amended): the occurrences listing is the stable descending sort by
`(due_soon, priority_score)`: it is a permutation of the enumerated list,
pairwise descending in the lexicographic key (so every due-soon occurrence
precedes every non-due-soon one, and within equal `due_soon` higher score
comes first), and records with exactly equal keys keep their original
enumeration order (the bills query of the occurrences endpoint has no
`ORDER BY name`, so that order is the fetch order, not the by-name
order). -/
theorem occurrences_sort_spec (l : List Occ) :
    (sortOccDesc l).Perm l ∧
    (sortOccDesc l).Pairwise occKeyGe ∧
    (sortOccDesc l).Pairwise (fun a b => b.due_soon = true → a.due_soon = true) ∧
    (∀ k : Bool × ℚ, (sortOccDesc l).filter (fun z => decide (occKey z = k)) =
      l.filter (fun z => decide (occKey z = k))) := by
  refine ⟨List.perm_insertionSort occKeyGe l, List.sorted_insertionSort occKeyGe l, ?_,
    fun k => sortOccDesc_filter_key l k⟩
  refine List.Pairwise.imp ?_ (List.sorted_insertionSort occKeyGe l)
  intro a b hab hb
  unfold occKeyGe occKeyLe at hab
  rcases hab with ⟨h1, h2⟩ | ⟨h1, h2⟩
  · rw [hb] at h1; exact absurd h1 (by simp)
  · rw [← h1]; exact hb

/-- Two occurrence records with identical sort keys whose names are not in
alphabetical order when listed as `[beta, alpha]`. -/
def occBeta : Occ :=
  ⟨"beta", "beta", ⟨2024, 1, 5⟩, 100, 0, false, 0, 0, 0, 3, true, 1 / 2⟩

/-- Companion record to `occBeta`; see
`occurrences_sort_by_name_counterexample`. -/
def occAlpha : Occ :=
  ⟨"alpha", "alpha", ⟨2024, 1, 5⟩, 100, 0, false, 0, 0, 0, 3, true, 1 / 2⟩

/-- C2 (counterexample to the by-name tie order): the occurrences endpoint
fetches bills without `ORDER BY name` (bills.py:288, unlike `list_bills` at
bills.py:195), so the pre-sort enumeration order need not be alphabetical;
on two equal-key records enumerated as `[beta, alpha]` the stable sort
keeps `[beta, alpha]`, not the by-name order `[alpha, beta]`. -/
theorem occurrences_sort_by_name_counterexample :
    sortOccDesc [occBeta, occAlpha] = [occBeta, occAlpha] ∧
    occKey occBeta = occKey occAlpha ∧
    occBeta.name = "beta" ∧ occAlpha.name = "alpha" := by
  refine ⟨?_, by norm_num [occKey, occBeta, occAlpha], rfl, rfl⟩
  norm_num [sortOccDesc, List.insertionSort, List.orderedInsert, occKeyGe, occKeyLe,
    occBeta, occAlpha]

/-! ## Allocation engine (breakdown.py:17-202)

The staged loops operate on the `(target id, need)` pairs of the scored
items, in processing order; the engine sorts the bill items by score and
the budget items by need before these loops (breakdown.py:66, 117), which
only permutes the lists, so the theorems quantify over the processed
order.  Each emitted allocation record keeps its unrounded `take` out of
`remaining` but reports `round(take, 2)` (breakdown.py:77, 125). -/

/-- The bills stage (breakdown.py:67-79): stop once `remaining ≤ 0`, skip
takes that are not positive, otherwise emit the rounded take and spend the
unrounded take. -/
def billsStage : List (String × ℚ) → ℚ → List (String × ℚ) × ℚ
  | [], remaining => ([], remaining)
  | item :: rest, remaining =>
    if remaining ≤ 0 then ([], remaining)
    else
      if min item.2 remaining ≤ 0 then billsStage rest remaining
      else
        ((item.1, round2 (min item.2 remaining)) ::
            (billsStage rest (remaining - min item.2 remaining)).1,
          (billsStage rest (remaining - min item.2 remaining)).2)

/-- The budgets stage (breakdown.py:118-127): as the bills stage but with
no skip of non-positive takes. -/
def budgetsStage : List (String × ℚ) → ℚ → List (String × ℚ) × ℚ
  | [], remaining => ([], remaining)
  | item :: rest, remaining =>
    if remaining ≤ 0 then ([], remaining)
    else
      ((item.1, round2 (min item.2 remaining)) ::
          (budgetsStage rest (remaining - min item.2 remaining)).1,
        (budgetsStage rest (remaining - min item.2 remaining)).2)

/-- The emergency-fund stage (breakdown.py:179-183): `ef_want = min(cap,
need)`; when both `remaining` and `ef_want` are positive, allocate
`round(min(remaining, ef_want), 2)` as a single entry. -/
def efStage (ef_need ef_cap remaining : ℚ) : ℚ × ℚ :=
  if 0 < remaining ∧ 0 < min ef_cap ef_need then
    (round2 (min remaining (min ef_cap ef_need)),
      remaining - round2 (min remaining (min ef_cap ef_need)))
  else (0, remaining)

/-- The response of `plan_breakdown` (breakdown.py:188-202), restricted to
its monetary content. -/
structure BreakdownResult where
  input_amount : ℚ
  reserve_cushion : ℚ
  bills : List (String × ℚ)
  budgets : List (String × ℚ)
  ef : ℚ
  to_bills : ℚ
  to_budgets : ℚ
  unallocated : ℚ
deriving DecidableEq, Repr

/-- `plan_breakdown` (breakdown.py:17-202) as a function of the inflow, the
reserve cushion, the computed bill and budget needs, and the emergency-fund
need and cap: `reserve = min(reserve_cushion, total)`,
`remaining = max(0, total - reserve)`, then the three stages in order, then
the response with its 2-decimal roundings. -/
def plan_breakdown (amount reserve_cushion : ℚ)
    (billNeeds budgetNeeds : List (String × ℚ)) (ef_need ef_cap : ℚ) :
    BreakdownResult :=
  { input_amount := round2 amount
    reserve_cushion := round2 (min reserve_cushion amount)
    bills := (billsStage billNeeds (max 0 (amount - min reserve_cushion amount))).1
    budgets :=
      (budgetsStage budgetNeeds
        (billsStage billNeeds (max 0 (amount - min reserve_cushion amount))).2).1
    ef :=
      (efStage ef_need ef_cap
        (budgetsStage budgetNeeds
          (billsStage billNeeds (max 0 (amount - min reserve_cushion amount))).2).2).1
    to_bills :=
      round2 (((billsStage billNeeds
        (max 0 (amount - min reserve_cushion amount))).1.map Prod.snd).sum)
    to_budgets :=
      round2 (((budgetsStage budgetNeeds
        (billsStage billNeeds (max 0 (amount - min reserve_cushion amount))).2).1.map
          Prod.snd).sum)
    unallocated :=
      round2 ((efStage ef_need ef_cap
        (budgetsStage budgetNeeds
          (billsStage billNeeds (max 0 (amount - min reserve_cushion amount))).2).2).2) }

theorem billsStage_spec (l : List (String × ℚ)) (r : ℚ) (hr : Cents r)
    (hl : ∀ p ∈ l, Cents p.2) :
    ((billsStage l r).1.map Prod.snd).sum = r - (billsStage l r).2 ∧
    Cents (billsStage l r).2 ∧
    (∀ p ∈ (billsStage l r).1, ∃ q ∈ l, q.1 = p.1 ∧ p.2 ≤ q.2) := by
  induction l generalizing r with
  | nil => simp [billsStage, hr]
  | cons item rest ih =>
    by_cases h0 : r ≤ 0
    · simp only [billsStage, if_pos h0]
      simp [hr]
    · rw [billsStage, if_neg h0]
      by_cases ht : min item.2 r ≤ 0
      · rw [if_pos ht]
        obtain ⟨e1, e2, e3⟩ := ih r hr (fun p hp => hl p (List.mem_cons_of_mem _ hp))
        exact ⟨e1, e2, fun p hp =>
          (e3 p hp).elim fun q hq => ⟨q, List.mem_cons_of_mem _ hq.1, hq.2⟩⟩
      · rw [if_neg ht]
        have htc : Cents (min item.2 r) := Cents.min (hl item (List.mem_cons_self _ _)) hr
        have hrc : Cents (r - min item.2 r) := Cents.sub hr htc
        obtain ⟨e1, e2, e3⟩ :=
          ih (r - min item.2 r) hrc (fun p hp => hl p (List.mem_cons_of_mem _ hp))
        refine ⟨?_, e2, ?_⟩
        · simp only [List.map_cons, List.sum_cons, e1, round2_cents htc]
          ring
        · intro p hp
          rcases List.mem_cons.mp hp with rfl | hp'
          · exact ⟨item, List.mem_cons_self _ _,
              rfl, by rw [round2_cents htc]; exact min_le_left _ _⟩
          · exact (e3 p hp').elim fun q hq => ⟨q, List.mem_cons_of_mem _ hq.1, hq.2⟩

theorem budgetsStage_spec (l : List (String × ℚ)) (r : ℚ) (hr : Cents r)
    (hl : ∀ p ∈ l, Cents p.2) :
    ((budgetsStage l r).1.map Prod.snd).sum = r - (budgetsStage l r).2 ∧
    Cents (budgetsStage l r).2 ∧
    (∀ p ∈ (budgetsStage l r).1, ∃ q ∈ l, q.1 = p.1 ∧ p.2 ≤ q.2) := by
  induction l generalizing r with
  | nil => simp [budgetsStage, hr]
  | cons item rest ih =>
    by_cases h0 : r ≤ 0
    · simp only [budgetsStage, if_pos h0]
      simp [hr]
    · rw [budgetsStage, if_neg h0]
      have htc : Cents (min item.2 r) := Cents.min (hl item (List.mem_cons_self _ _)) hr
      have hrc : Cents (r - min item.2 r) := Cents.sub hr htc
      obtain ⟨e1, e2, e3⟩ :=
        ih (r - min item.2 r) hrc (fun p hp => hl p (List.mem_cons_of_mem _ hp))
      refine ⟨?_, e2, ?_⟩
      · simp only [List.map_cons, List.sum_cons, e1, round2_cents htc]
        ring
      · intro p hp
        rcases List.mem_cons.mp hp with rfl | hp'
        · exact ⟨item, List.mem_cons_self _ _,
            rfl, by rw [round2_cents htc]; exact min_le_left _ _⟩
        · exact (e3 p hp').elim fun q hq => ⟨q, List.mem_cons_of_mem _ hq.1, hq.2⟩

theorem efStage_spec (ef_need ef_cap r : ℚ) (hr : Cents r) (hn : Cents ef_need)
    (hc : Cents ef_cap) :
    (efStage ef_need ef_cap r).1 = r - (efStage ef_need ef_cap r).2 ∧
    Cents (efStage ef_need ef_cap r).2 ∧
    (0 ≤ ef_need → 0 ≤ ef_cap → (efStage ef_need ef_cap r).1 ≤ min ef_cap ef_need) := by
  unfold efStage
  split_ifs with h
  · have hw : Cents (min r (min ef_cap ef_need)) := Cents.min hr (Cents.min hc hn)
    rw [round2_cents hw]
    refine ⟨by ring, Cents.sub hr hw, fun _ _ => min_le_right _ _⟩
  · exact ⟨by ring, hr, fun h1 h2 => le_min h2 h1⟩

/-- C1 (amended): on non-negative whole-cent inputs, the reported reserve,
bill allocations, budget allocations, emergency-fund allocation and
unallocated remainder sum exactly to the inflow. -/
theorem allocation_conservation (amount rc : ℚ)
    (billNeeds budgetNeeds : List (String × ℚ)) (ef_need ef_cap : ℚ)
    (h0 : 0 ≤ amount) (h1 : 0 ≤ rc)
    (h2 : ∀ p ∈ billNeeds, 0 ≤ p.2) (h3 : ∀ p ∈ budgetNeeds, 0 ≤ p.2)
    (h4 : 0 ≤ ef_need) (h5 : 0 ≤ ef_cap)
    (c0 : Cents amount) (c1 : Cents rc)
    (c2 : ∀ p ∈ billNeeds, Cents p.2) (c3 : ∀ p ∈ budgetNeeds, Cents p.2)
    (c4 : Cents ef_need) (c5 : Cents ef_cap) :
    (plan_breakdown amount rc billNeeds budgetNeeds ef_need ef_cap).reserve_cushion +
      ((plan_breakdown amount rc billNeeds budgetNeeds ef_need ef_cap).bills.map
        Prod.snd).sum +
      ((plan_breakdown amount rc billNeeds budgetNeeds ef_need ef_cap).budgets.map
        Prod.snd).sum +
      (plan_breakdown amount rc billNeeds budgetNeeds ef_need ef_cap).ef +
      (plan_breakdown amount rc billNeeds budgetNeeds ef_need ef_cap).unallocated =
      amount := by
  have hres : Cents (min rc amount) := Cents.min c1 c0
  have hr0 : Cents (max 0 (amount - min rc amount)) :=
    Cents.max Cents.zero (Cents.sub c0 hres)
  obtain ⟨b1, b2, _⟩ := billsStage_spec billNeeds _ hr0 c2
  obtain ⟨g1, g2, _⟩ := budgetsStage_spec budgetNeeds _ b2 c3
  obtain ⟨f1, f2, _⟩ := efStage_spec ef_need ef_cap _ g2 c4 c5
  simp only [plan_breakdown]
  rw [b1, g1, f1, round2_cents hres, round2_cents f2]
  have hmax : max 0 (amount - min rc amount) = amount - min rc amount :=
    max_eq_right (by linarith [min_le_right rc amount])
  rw [hmax]
  ring

/-- Witness for `allocation_conservation`: the spec's scenario — inflow
1000, cushion 200, one bill need 300, one budget need 150, ef need 500, ef
cap 50 — balances exactly. -/
theorem allocation_conservation_witness :
    (plan_breakdown 1000 200 [("b", 300)] [("c", 150)] 500 50).reserve_cushion +
      ((plan_breakdown 1000 200 [("b", 300)] [("c", 150)] 500 50).bills.map
        Prod.snd).sum +
      ((plan_breakdown 1000 200 [("b", 300)] [("c", 150)] 500 50).budgets.map
        Prod.snd).sum +
      (plan_breakdown 1000 200 [("b", 300)] [("c", 150)] 500 50).ef +
      (plan_breakdown 1000 200 [("b", 300)] [("c", 150)] 500 50).unallocated = 1000 :=
  allocation_conservation 1000 200 [("b", 300)] [("c", 150)] 500 50
    (by norm_num) (by norm_num)
    (fun p hp => by rcases List.mem_singleton.mp hp with rfl; norm_num)
    (fun p hp => by rcases List.mem_singleton.mp hp with rfl; norm_num)
    (by norm_num) (by norm_num)
    ⟨100000, by norm_num⟩ ⟨20000, by norm_num⟩
    (fun p hp => by rcases List.mem_singleton.mp hp with rfl; exact ⟨30000, by norm_num⟩)
    (fun p hp => by rcases List.mem_singleton.mp hp with rfl; exact ⟨15000, by norm_num⟩)
    ⟨50000, by norm_num⟩ ⟨5000, by norm_num⟩

/-- C1 (counterexample to exact conservation on arbitrary inputs): a bill
need of 10.005 — half a cent — makes the reported figures sum to 100.01
instead of the inflow 100: the recorded allocation is rounded to 10.01
while the unrounded 10.005 is what leaves `remaining`. -/
theorem allocation_conservation_counterexample :
    ¬ ((plan_breakdown 100 0 [("b1", 2001 / 200)] [] 0 0).reserve_cushion +
        ((plan_breakdown 100 0 [("b1", 2001 / 200)] [] 0 0).bills.map Prod.snd).sum +
        ((plan_breakdown 100 0 [("b1", 2001 / 200)] [] 0 0).budgets.map Prod.snd).sum +
        (plan_breakdown 100 0 [("b1", 2001 / 200)] [] 0 0).ef +
        (plan_breakdown 100 0 [("b1", 2001 / 200)] [] 0 0).unallocated = 100) := by
  norm_num [plan_breakdown, billsStage, budgetsStage, efStage, round2, round_eq]

/-- C6 (amended): on non-negative whole-cent inputs, no recorded bill or
budget allocation exceeds the need of the item it targets, and the
emergency-fund allocation is at most `min(ef_cap, ef_need)`. -/
theorem allocation_bounds (amount rc : ℚ)
    (billNeeds budgetNeeds : List (String × ℚ)) (ef_need ef_cap : ℚ)
    (h4 : 0 ≤ ef_need) (h5 : 0 ≤ ef_cap)
    (c0 : Cents amount) (c1 : Cents rc)
    (c2 : ∀ p ∈ billNeeds, Cents p.2) (c3 : ∀ p ∈ budgetNeeds, Cents p.2)
    (c4 : Cents ef_need) (c5 : Cents ef_cap) :
    (∀ p ∈ (plan_breakdown amount rc billNeeds budgetNeeds ef_need ef_cap).bills,
      ∃ q ∈ billNeeds, q.1 = p.1 ∧ p.2 ≤ q.2) ∧
    (∀ p ∈ (plan_breakdown amount rc billNeeds budgetNeeds ef_need ef_cap).budgets,
      ∃ q ∈ budgetNeeds, q.1 = p.1 ∧ p.2 ≤ q.2) ∧
    (plan_breakdown amount rc billNeeds budgetNeeds ef_need ef_cap).ef ≤
      min ef_cap ef_need := by
  have hres : Cents (min rc amount) := Cents.min c1 c0
  have hr0 : Cents (max 0 (amount - min rc amount)) :=
    Cents.max Cents.zero (Cents.sub c0 hres)
  obtain ⟨_, b2, b3⟩ := billsStage_spec billNeeds _ hr0 c2
  obtain ⟨_, g2, g3⟩ := budgetsStage_spec budgetNeeds _ b2 c3
  obtain ⟨_, _, f3⟩ := efStage_spec ef_need ef_cap _ g2 c4 c5
  exact ⟨b3, g3, f3 h4 h5⟩

/-- Witness for `allocation_bounds` at the spec's scenario. -/
theorem allocation_bounds_witness :
    (∀ p ∈ (plan_breakdown 1000 200 [("b", 300)] [("c", 150)] 500 50).bills,
      ∃ q ∈ [(("b" : String), (300 : ℚ))], q.1 = p.1 ∧ p.2 ≤ q.2) ∧
    (∀ p ∈ (plan_breakdown 1000 200 [("b", 300)] [("c", 150)] 500 50).budgets,
      ∃ q ∈ [(("c" : String), (150 : ℚ))], q.1 = p.1 ∧ p.2 ≤ q.2) ∧
    (plan_breakdown 1000 200 [("b", 300)] [("c", 150)] 500 50).ef ≤ min 50 500 :=
  allocation_bounds 1000 200 [("b", 300)] [("c", 150)] 500 50
    (by norm_num) (by norm_num)
    ⟨100000, by norm_num⟩ ⟨20000, by norm_num⟩
    (fun p hp => by rcases List.mem_singleton.mp hp with rfl; exact ⟨30000, by norm_num⟩)
    (fun p hp => by rcases List.mem_singleton.mp hp with rfl; exact ⟨15000, by norm_num⟩)
    ⟨50000, by norm_num⟩ ⟨5000, by norm_num⟩

/-- C6 (counterexample on arbitrary inputs): a bill need of 10.006 is fully
taken and recorded as `round(10.006, 2) = 10.01`, which exceeds the item's
need. -/
theorem allocation_bounds_counterexample :
    (plan_breakdown 100 0 [("b1", 5003 / 500)] [] 0 0).bills = [("b1", 1001 / 100)] ∧
    ¬ ((1001 : ℚ) / 100 ≤ 5003 / 500) := by
  constructor
  · norm_num [plan_breakdown, billsStage, round2, round_eq]
  · norm_num

/-! ## Request validation of the breakdown endpoint (breakdown.py:10-15) -/

/-- The pydantic validation of `BreakdownBody`: `amount` and
`reserve_cushion` carry `ge=0`, `due_soon_days` carries `ge=1, le=60`.  A
request violating these never reaches the handler. -/
def validBreakdownBody (amount reserve_cushion : ℚ) (due_soon_days : ℤ) : Prop :=
  0 ≤ amount ∧ 0 ≤ reserve_cushion ∧ 1 ≤ due_soon_days ∧ due_soon_days ≤ 60

instance (amount reserve_cushion : ℚ) (due_soon_days : ℤ) :
    Decidable (validBreakdownBody amount reserve_cushion due_soon_days) := by
  unfold validBreakdownBody; infer_instance

/-- The breakdown endpoint as seen by a client: pydantic rejects an invalid
body with 422 Unprocessable Entity before `plan_breakdown` runs. -/
def handle_breakdown (amount reserve_cushion : ℚ) (due_soon_days : ℤ)
    (billNeeds budgetNeeds : List (String × ℚ)) (ef_need ef_cap : ℚ) :
    Except String BreakdownResult :=
  if validBreakdownBody amount reserve_cushion due_soon_days then
    .ok (plan_breakdown amount reserve_cushion billNeeds budgetNeeds ef_need ef_cap)
  else .error "422 Unprocessable Entity"

/-- C7 (counterexample to "negative inflow treated as zero"): a negative
inflow is rejected by request validation (`amount: ge=0`), not treated as a
zero inflow. -/
theorem negative_inflow_rejected :
    handle_breakdown (-1) 200 14 [] [] 0 0 = .error "422 Unprocessable Entity" := by
  rw [handle_breakdown, if_neg]
  unfold validBreakdownBody
  norm_num

/-- C7 (amended): a negative inflow amount is rejected by request
validation rather than reaching the engine; a reserve cushion at least the
inflow is clamped so that the reported reserve equals the (rounded)
inflow. -/
theorem inflow_validation_and_reserve_clamp (amount rc : ℚ) (dsd : ℤ)
    (billNeeds budgetNeeds : List (String × ℚ)) (ef_need ef_cap : ℚ) :
    (amount < 0 →
      handle_breakdown amount rc dsd billNeeds budgetNeeds ef_need ef_cap =
        .error "422 Unprocessable Entity") ∧
    (amount ≤ rc →
      (plan_breakdown amount rc billNeeds budgetNeeds ef_need ef_cap).reserve_cushion =
        round2 amount) := by
  constructor
  · intro h
    rw [handle_breakdown, if_neg]
    unfold validBreakdownBody
    intro hv
    linarith [hv.1]
  · intro h
    simp only [plan_breakdown]
    rw [min_eq_right h]

/-- Witness for `inflow_validation_and_reserve_clamp`: inflow −2 is
rejected; with inflow 100 and cushion 500 the reported reserve is 100. -/
theorem inflow_validation_and_reserve_clamp_witness :
    handle_breakdown (-2) 300 14 [] [] 0 0 = .error "422 Unprocessable Entity" ∧
    (plan_breakdown 100 500 [] [] 0 0).reserve_cushion = round2 100 :=
  ⟨(inflow_validation_and_reserve_clamp (-2) 300 14 [] [] 0 0).1 (by norm_num),
   (inflow_validation_and_reserve_clamp 100 500 14 [] [] 0 0).2 (by norm_num)⟩

/-! ## Emergency-fund figures (breakdown.py:129-183 and ef.py:14-68) -/

/-- The emergency-fund figures computed inside `plan_breakdown`
(breakdown.py:144-180) from the fetched 3-month outflow, latest liquid
balance total and current-month income: `baseline = outflow_3m / 3.0`,
`target = baseline * 3.0`, `need = max(0, target - liquid)`,
`cap = monthly_income * 0.05`, `ef_want = min(cap, need)`. -/
def planBreakdownEfFigures (outflow_3m liquid monthly_income : ℚ) : ℚ × ℚ × ℚ × ℚ :=
  (outflow_3m / 3 * 3,
   max 0 (outflow_3m / 3 * 3 - liquid),
   monthly_income * 0.05,
   min (monthly_income * 0.05) (max 0 (outflow_3m / 3 * 3 - liquid)))

/-- The same figures as computed by the `/ef` overview endpoint
(ef.py:29-67): `baseline = outflow_3m / 3.0`, `target = baseline * 3.0`,
`need = max(0.0, target - liquid)`, `cap = monthly_income * 0.05`,
`recommended = min(cap, need)`. -/
def efOverviewFigures (outflow_3m liquid monthly_income : ℚ) : ℚ × ℚ × ℚ × ℚ :=
  (outflow_3m / 3 * 3,
   max 0 (outflow_3m / 3 * 3 - liquid),
   monthly_income * 0.05,
   min (monthly_income * 0.05) (max 0 (outflow_3m / 3 * 3 - liquid)))

/-- C10: given the same fetched figures, the emergency-fund stage of the
allocation engine and the ef overview endpoint compute identical target,
need, cap and want/recommended values — target is 3 × the average monthly
outflow, need is `max(0, target - liquid)`, cap is 5% of monthly income,
and want/recommended is `min(cap, need)`. -/
theorem ef_figures_agree (outflow_3m liquid monthly_income : ℚ) :
    planBreakdownEfFigures outflow_3m liquid monthly_income =
      efOverviewFigures outflow_3m liquid monthly_income ∧
    (planBreakdownEfFigures outflow_3m liquid monthly_income).1 =
      3 * (outflow_3m / 3) ∧
    (planBreakdownEfFigures outflow_3m liquid monthly_income).2.1 =
      max 0 ((planBreakdownEfFigures outflow_3m liquid monthly_income).1 - liquid) ∧
    (planBreakdownEfFigures outflow_3m liquid monthly_income).2.2.1 =
      monthly_income * (5 / 100) ∧
    (planBreakdownEfFigures outflow_3m liquid monthly_income).2.2.2 =
      min (planBreakdownEfFigures outflow_3m liquid monthly_income).2.2.1
        (planBreakdownEfFigures outflow_3m liquid monthly_income).2.1 := by
  refine ⟨rfl, ?_, rfl, ?_, rfl⟩
  · show outflow_3m / 3 * 3 = 3 * (outflow_3m / 3)
    ring
  · show monthly_income * 0.05 = monthly_income * (5 / 100)
    norm_num

end Cashflow
